import Mathlib

/-!
# Categorical encoding: vocabulary builder and encoder strategies

This file embeds the categorical-encoding transformations demonstrated by
`src/guides/notebooks/categorical-encoding-guide.ipynb`.  The notebook itself
only calls into the external `categorical_encoding` library
(`ce.Encoder(method=...)` followed by `fit_transform`); the implementation of
each strategy is not part of the repository, so the strategies are modelled
here from the specification's description of them, and every model is checked
against the concrete input/output tables recorded in the notebook cells
(cells 8, 10, 13, 16, 19, 23 and 26), which are the repository's only
executable evidence.  Where the recorded outputs contradict the
specification's description (the target encoder's smoothing and the binary
encoder's column count), the definitions follow the recorded outputs and the
discrepancy is proved below.
-/

namespace CatEnc

/-! ## The demonstration dataset

`utils.create_feature_matrix()` produces the table shown in cell 8:
six rows, categorical column `product_id` and numeric column `value`. -/

/-- The `product_id` column of the demo feature matrix (cell 8). -/
def demoCol : List String :=
  ["coke zero", "coke zero", "coke zero", "car", "car", "toothpaste"]

/-- The `value` column of the demo feature matrix (cell 8). -/
def demoValues : List ℚ := [0, 5, 10, 15, 20, 0]

/-- The demo rows as (category, target) pairs. -/
def demoRows : List (String × ℚ) := demoCol.zip demoValues

/-- The toy rows used by the specification's worked example for the target and
leave-one-out strategies: categories {A, A, B} with targets {10, 20, 30}. -/
def exRows : List (String × ℚ) := [("A", 10), ("A", 20), ("B", 30)]

/-! ## Category vocabulary builder

Modelled from the spec: fit scans the training column and enumerates its
distinct values in order of first occurrence (`pandas`-style `unique`). -/

/-- The distinct values of a column in order of first occurrence. -/
def uniqueInOrder {C : Type} [DecidableEq C] : List C → List C
  | [] => []
  | v :: rest => v :: uniqueInOrder (rest.filter (fun u => decide (u ≠ v)))
termination_by l => l.length
decreasing_by
  simp only [List.length_cons]
  exact Nat.lt_succ_of_le (List.length_filter_le _ _)

/-! ## Ordinal strategy

Modelled from the spec: fit assigns each distinct category the index+1 of its
position in first-occurrence order, reserving 0 for unseen values; transform
maps every value through the vocabulary.  Checked against cell 10's recorded
output `[1, 1, 1, 2, 2, 3]` below. -/

/-- Ordinal fit: the fitted vocabulary, in first-occurrence order. -/
def ordinalFit {C : Type} [DecidableEq C] (col : List C) : List C :=
  uniqueInOrder col

/-- Encode one value through a fitted vocabulary: position + 1, or the
reserved sentinel 0 for values outside the vocabulary. -/
def ordinalEncode {C : Type} [DecidableEq C] (vocab : List C) (v : C) : ℕ :=
  if v ∈ vocab then vocab.indexOf v + 1 else 0

/-- Ordinal transform of a whole column. -/
def ordinalTransform {C : Type} [DecidableEq C] (vocab : List C) (col : List C) :
    List ℕ :=
  col.map (ordinalEncode vocab)

/-! ## One-hot strategy

Modelled from the spec: fit builds the vocabulary of size `k`; transform
produces `k` binary columns, a row carrying category `c` has a 1 exactly in
the column of `c` and 0 elsewhere; rows whose category is outside the
vocabulary (and no configured unknown column) are all zeros.  Checked against
cell 13's recorded output below. -/

/-- One-hot encode one value: the indicator row over the vocabulary. -/
def oneHotEncode {C : Type} [DecidableEq C] (vocab : List C) (v : C) : List ℕ :=
  vocab.map (fun u => if v = u then 1 else 0)

/-- One-hot transform of a whole column. -/
def oneHotTransform {C : Type} [DecidableEq C] (vocab : List C) (col : List C) :
    List (List ℕ) :=
  col.map (oneHotEncode vocab)

/-! ## Binary strategy

The values are first ordinal encoded (codes 1..k, sentinel 0 for unseen), and
each code is written in binary, most-significant bit first, across a fixed
number of columns.  The column count is modelled from the recorded output of
cell 16: the library (`category_encoders`' `BaseNEncoder.calc_required_digits`
with base 2) allocates `ceil(log2 k) + 1` columns — the demo's 3 categories
produce 3 columns `[0,0,1] / [0,1,0] / [0,1,1]`, not the
`ceil(log2 (k+1)) = 2` columns the specification's formula would give. -/

/-- Number of binary columns allocated for a vocabulary of `k` categories:
`ceil(log2 k) + 1`. -/
def requiredDigits (k : ℕ) : ℕ := Nat.clog 2 k + 1

/-- The `w`-bit binary representation of `n`, most-significant bit first. -/
def toBitsMSB : ℕ → ℕ → List ℕ
  | 0, _ => []
  | w + 1, n => n / 2 ^ w % 2 :: toBitsMSB w (n % 2 ^ w)

/-- Decode a most-significant-bit-first digit list back to the integer. -/
def fromBitsMSB (bs : List ℕ) : ℕ := bs.foldl (fun acc b => 2 * acc + b) 0

/-- Binary encode one value through a fitted vocabulary. -/
def binaryEncode {C : Type} [DecidableEq C] (vocab : List C) (v : C) : List ℕ :=
  toBitsMSB (requiredDigits vocab.length) (ordinalEncode vocab v)

/-- Binary transform of a whole column. -/
def binaryTransform {C : Type} [DecidableEq C] (vocab : List C) (col : List C) :
    List (List ℕ) :=
  col.map (binaryEncode vocab)

/-! ## Hashing strategy

Modelled from the spec: fit stores no data-dependent state beyond the
configured output width and hash function (the library's default is md5,
abstracted here as an arbitrary function `C → ℕ`); transform sets column
`hash v % width` to 1 and every other column to 0.  Collisions are not an
error: the transform is total. -/

/-- Hashing encode one value: indicator of column `hash v % w` among `w`
columns. -/
def hashingEncode {C : Type} (hash : C → ℕ) (w : ℕ) (v : C) : List ℕ :=
  (List.range w).map (fun j => if hash v % w = j then 1 else 0)

/-- Hashing transform of a whole column. -/
def hashingTransform {C : Type} (hash : C → ℕ) (w : ℕ) (col : List C) :
    List (List ℕ) :=
  col.map (hashingEncode hash w)

/-- A hash assignment consistent with the recorded cell 19 output (width 8,
`coke zero ↦ column 4`, `car ↦ column 1`, `toothpaste ↦ column 3`). -/
def demoHash (v : String) : ℕ :=
  if v = "coke zero" then 4 else if v = "car" then 1 else 3

/-! ## Leave-one-out strategy (training-set fit_transform)

Modelled from the spec: on the training set, each row receives the mean of
the target over all other rows of its category, `(catSum - own) / (n - 1)`;
a category with a single row falls back to the global target mean.  Checked
against cell 26's recorded output `[7.50, 5.00, 2.50, 20.00, 15.00, 8.33]`
below. -/

/-- The targets of all training rows carrying category `c`. -/
def catTargets {C : Type} [DecidableEq C] (rows : List (C × ℚ)) (c : C) :
    List ℚ :=
  (rows.filter (fun r => decide (r.1 = c))).map Prod.snd

/-- Number of training rows carrying category `c`. -/
def catCount {C : Type} [DecidableEq C] (rows : List (C × ℚ)) (c : C) : ℕ :=
  (catTargets rows c).length

/-- Sum of the targets over the training rows carrying category `c`. -/
def catSum {C : Type} [DecidableEq C] (rows : List (C × ℚ)) (c : C) : ℚ :=
  (catTargets rows c).sum

/-- The global mean of the target column. -/
def globalMean {C : Type} (rows : List (C × ℚ)) : ℚ :=
  (rows.map Prod.snd).sum / rows.length

/-- The leave-one-out value of one training row `(c, y)`: the mean of the
target over the other rows of category `c`, or the global mean when the row
is the only one of its category. -/
def looRowValue {C : Type} [DecidableEq C] (rows : List (C × ℚ)) (r : C × ℚ) :
    ℚ :=
  if catCount rows r.1 = 1 then globalMean rows
  else (catSum rows r.1 - r.2) / ((catCount rows r.1 : ℚ) - 1)

/-- The coupled leave-one-out fit_transform on the training rows. -/
def looFitTransform {C : Type} [DecidableEq C] (rows : List (C × ℚ)) : List ℚ :=
  rows.map (looRowValue rows)

/-! ## Target strategy

The specification describes fit as storing, per category, the plain
arithmetic mean of the target over that category's training rows.  The
recorded output of cell 23 (`[5.40, 5.40, 5.40, 15.03, 15.03, 8.33]` on the
demo data, whose plain per-category means are `[5, 5, 5, 17.5, 17.5, 0]`)
shows the library does something else: as the notebook's own prose says, it
stores a *weighted* average of the per-category mean and the global (prior)
mean.  The model below follows the library's documented smoothing (weight
`1 / (1 + exp (-(n - 1)))` for a category with `n` rows, with categories of
a single row — and unseen categories — mapped to the prior outright), which
reproduces every recorded cell of the notebook output; the specification's
plain-mean reading is kept alongside as `specTargetMean` for comparison. -/

/-- The targets of all training rows carrying category `c` (real-valued). -/
def catTargetsR {C : Type} [DecidableEq C] (rows : List (C × ℝ)) (c : C) :
    List ℝ :=
  (rows.filter (fun r => decide (r.1 = c))).map Prod.snd

/-- The global (prior) mean of the real-valued target column. -/
noncomputable def priorMean {C : Type} (rows : List (C × ℝ)) : ℝ :=
  (rows.map Prod.snd).sum / rows.length

/-- The smoothing weight given to the per-category mean for a category with
`n` training rows: `1 / (1 + exp (-(n - 1)))`. -/
noncomputable def smoothWeight (n : ℕ) : ℝ :=
  1 / (1 + Real.exp (-((n : ℝ) - 1)))

/-- The spec's plain per-category target mean (its description of fit). -/
noncomputable def specTargetMean {C : Type} [DecidableEq C]
    (rows : List (C × ℝ)) (c : C) : ℝ :=
  (catTargetsR rows c).sum / (catTargetsR rows c).length

/-- The value the fitted target encoder stores for category `c`: the prior
mean when `c` has at most one training row (this also covers unseen
categories), otherwise the smoothed blend of prior and per-category mean. -/
noncomputable def targetStat {C : Type} [DecidableEq C] (rows : List (C × ℝ))
    (c : C) : ℝ :=
  if (catTargetsR rows c).length ≤ 1 then priorMean rows
  else priorMean rows * (1 - smoothWeight (catTargetsR rows c).length) +
    specTargetMean rows c * smoothWeight (catTargetsR rows c).length

/-- Target transform of a whole column through the fitted statistics. -/
noncomputable def targetTransform {C : Type} [DecidableEq C]
    (rows : List (C × ℝ)) (col : List C) : List ℝ :=
  col.map (targetStat rows)

/-- The demo rows with real-valued targets (cell 8). -/
def demoRowsR : List (String × ℝ) :=
  [("coke zero", 0), ("coke zero", 5), ("coke zero", 10),
    ("car", 15), ("car", 20), ("toothpaste", 0)]

/-- The specification's worked example rows with real-valued targets. -/
def exRowsR : List (String × ℝ) := [("A", 10), ("A", 20), ("B", 30)]

/-! ## Encoder facade state machine

Modelled from the spec: every strategy follows `Unfit → Fit → (Transform)*`.
`fit` establishes the strategy's fit state; `transform` on a never-fitted
instance fails with a "not fitted" error and produces no output at all;
re-fitting replaces the prior fit state entirely. -/

/-- An encoder instance: a strategy's fit function, its per-value transform,
and the (initially absent) fit state. -/
structure Encoder (C S : Type) where
  fitFn : List C → S
  applyFn : S → C → List ℚ
  state : Option S

/-- Fit the encoder on a training column, replacing any prior state. -/
def Encoder.fit {C S : Type} (e : Encoder C S) (col : List C) : Encoder C S :=
  { e with state := some (e.fitFn col) }

/-- Transform a column; fails with "not fitted" when fit never ran. -/
def Encoder.transform {C S : Type} (e : Encoder C S) (col : List C) :
    Except String (List (List ℚ)) :=
  match e.state with
  | none => Except.error "not fitted"
  | some s => Except.ok (col.map (e.applyFn s))

/-! ## Table-level transforms

The facade reattaches the encoded columns of the categorical column to the
untouched non-categorical columns.  A table is a list of rows, each row the
pair of its category and its numeric `value` cell. -/

/-- Ordinal transform of a table. -/
def ordinalTable {C : Type} [DecidableEq C] (vocab : List C)
    (rows : List (C × ℚ)) : List (ℕ × ℚ) :=
  rows.map (fun r => (ordinalEncode vocab r.1, r.2))

/-- One-hot transform of a table. -/
def oneHotTable {C : Type} [DecidableEq C] (vocab : List C)
    (rows : List (C × ℚ)) : List (List ℕ × ℚ) :=
  rows.map (fun r => (oneHotEncode vocab r.1, r.2))

/-- Binary transform of a table. -/
def binaryTable {C : Type} [DecidableEq C] (vocab : List C)
    (rows : List (C × ℚ)) : List (List ℕ × ℚ) :=
  rows.map (fun r => (binaryEncode vocab r.1, r.2))

/-- Hashing transform of a table. -/
def hashingTable {C : Type} (hash : C → ℕ) (w : ℕ)
    (rows : List (C × ℚ)) : List (List ℕ × ℚ) :=
  rows.map (fun r => (hashingEncode hash w r.1, r.2))

/-- Target transform of a table (real-valued). -/
noncomputable def targetTable {C : Type} [DecidableEq C]
    (fitRows : List (C × ℝ)) (rows : List (C × ℝ)) : List (ℝ × ℝ) :=
  rows.map (fun r => (targetStat fitRows r.1, r.2))

/-- Leave-one-out fit_transform of the training table. -/
def looTable {C : Type} [DecidableEq C] (rows : List (C × ℚ)) :
    List (ℚ × ℚ) :=
  rows.map (fun r => (looRowValue rows r, r.2))

/-! ## Vocabulary builder lemmas -/

theorem mem_uniqueInOrder {C : Type} [DecidableEq C] (l : List C) (v : C) :
    v ∈ uniqueInOrder l ↔ v ∈ l := by
  induction l using uniqueInOrder.induct with
  | case1 => simp [uniqueInOrder]
  | case2 a rest ih =>
    rw [uniqueInOrder]
    simp only [List.mem_cons, ih, List.mem_filter, decide_eq_true_eq]
    constructor
    · rintro (rfl | ⟨hv, _⟩)
      · exact Or.inl rfl
      · exact Or.inr hv
    · rintro (rfl | hv)
      · exact Or.inl rfl
      · by_cases hva : v = a
        · exact Or.inl hva
        · exact Or.inr ⟨hv, hva⟩

theorem nodup_uniqueInOrder {C : Type} [DecidableEq C] (l : List C) :
    (uniqueInOrder l).Nodup := by
  induction l using uniqueInOrder.induct with
  | case1 => simp [uniqueInOrder]
  | case2 a rest ih =>
    rw [uniqueInOrder]
    refine List.nodup_cons.mpr ⟨?_, ih⟩
    intro hmem
    have := (mem_uniqueInOrder _ _).mp hmem
    simp at this

theorem indexOf_filter_lt_iff {C : Type} [DecidableEq C] (p : C → Bool) (l : List C)
    (u w : C) (hpu : p u = true) (hpw : p w = true) : u ∈ l →
    ((l.filter p).indexOf u < (l.filter p).indexOf w ↔ l.indexOf u < l.indexOf w) := by
  induction l with
  | nil => intro hu; cases hu
  | cons a t ih =>
    intro hu
    by_cases hpa : p a = true
    · rw [List.filter_cons_of_pos hpa]
      by_cases hau : a = u
      · subst hau
        rw [List.indexOf_cons_self, List.indexOf_cons_self]
        by_cases hwa : a = w
        · subst hwa; rw [List.indexOf_cons_self, List.indexOf_cons_self]
        · rw [List.indexOf_cons_ne _ hwa, List.indexOf_cons_ne _ hwa]
          simp [Nat.succ_pos]
      · have hut : u ∈ t := by
          rcases List.mem_cons.mp hu with rfl | h
          · exact absurd rfl hau
          · exact h
        by_cases haw : a = w
        · subst haw
          rw [List.indexOf_cons_self, List.indexOf_cons_self]
          simp
        · rw [List.indexOf_cons_ne _ hau, List.indexOf_cons_ne _ hau,
            List.indexOf_cons_ne _ haw, List.indexOf_cons_ne _ haw]
          rw [Nat.succ_lt_succ_iff, Nat.succ_lt_succ_iff]
          exact ih hut
    · have hau : a ≠ u := fun h => hpa (h ▸ hpu)
      have haw : a ≠ w := fun h => hpa (h ▸ hpw)
      have hut : u ∈ t := by
        rcases List.mem_cons.mp hu with rfl | h
        · exact absurd rfl hau
        · exact h
      rw [List.filter_cons_of_neg (by simpa using hpa)]
      rw [List.indexOf_cons_ne _ hau, List.indexOf_cons_ne _ haw,
        Nat.succ_lt_succ_iff]
      exact ih hut

/-- The vocabulary built by `uniqueInOrder` lists categories in first-occurrence
order: relative order of indices in the vocabulary matches relative order of
first occurrences in the training column. -/
theorem indexOf_uniqueInOrder_lt_iff {C : Type} [DecidableEq C] :
    ∀ (l : List C) (u w : C), u ∈ l → w ∈ l →
    ((uniqueInOrder l).indexOf u < (uniqueInOrder l).indexOf w ↔
      l.indexOf u < l.indexOf w) := by
  intro l
  induction l using uniqueInOrder.induct with
  | case1 => intro u w hu _; cases hu
  | case2 a rest ih =>
    intro u w hu hw
    rw [uniqueInOrder]
    by_cases hau : a = u
    · subst hau
      rw [List.indexOf_cons_self, List.indexOf_cons_self]
      by_cases haw : a = w
      · subst haw; rw [List.indexOf_cons_self, List.indexOf_cons_self]
      · have haw' : a ≠ w := haw
        rw [List.indexOf_cons_ne _ haw', List.indexOf_cons_ne _ haw']
        simp [Nat.succ_pos]
    · by_cases haw : a = w
      · subst haw
        rw [List.indexOf_cons_self, List.indexOf_cons_self]
        simp
      · have hau' : a ≠ u := hau
        have haw' : a ≠ w := haw
        have hur : u ∈ rest := by
          rcases List.mem_cons.mp hu with rfl | h
          · exact absurd rfl hau
          · exact h
        have hwr : w ∈ rest := by
          rcases List.mem_cons.mp hw with rfl | h
          · exact absurd rfl haw
          · exact h
        have hpu : (fun x => decide (x ≠ a)) u = true :=
          decide_eq_true (fun h => hau h.symm)
        have hpw : (fun x => decide (x ≠ a)) w = true :=
          decide_eq_true (fun h => haw h.symm)
        have huf : u ∈ rest.filter (fun x => decide (x ≠ a)) :=
          List.mem_filter.mpr ⟨hur, hpu⟩
        have hwf : w ∈ rest.filter (fun x => decide (x ≠ a)) :=
          List.mem_filter.mpr ⟨hwr, hpw⟩
        rw [List.indexOf_cons_ne _ hau', List.indexOf_cons_ne _ hau',
          List.indexOf_cons_ne _ haw', List.indexOf_cons_ne _ haw',
          Nat.succ_lt_succ_iff, Nat.succ_lt_succ_iff]
        rw [ih u w huf hwf]
        exact indexOf_filter_lt_iff _ rest u w hpu hpw hur

/-- The fitted vocabulary on the demo column, in first-occurrence order;
matches the ordinal codes 1, 2, 3 recorded in cell 10. -/
theorem demoVocab_eq :
    ordinalFit demoCol = ["coke zero", "car", "toothpaste"] := by
  simp [ordinalFit, demoCol, uniqueInOrder]

/-! ## Claim C6: ordinal strategy -/

/-- C6: ordinal fit assigns each distinct category the integer index+1 with
indices in first-occurrence order (deterministically for a fixed input
order), transform maps values through the vocabulary, unseen values map to
the reserved sentinel 0; on the demo column the codes are 1, 1, 1, 2, 2, 3
as recorded in cell 10. -/
theorem ordinal_encoding_first_occurrence :
    (∀ (C : Type) [DecidableEq C] (col : List C) (v : C), v ∉ col →
        ordinalEncode (ordinalFit col) v = 0) ∧
    (∀ (C : Type) [DecidableEq C] (col : List C) (v : C), v ∈ col →
        1 ≤ ordinalEncode (ordinalFit col) v ∧
        ordinalEncode (ordinalFit col) v ≤ (ordinalFit col).length) ∧
    (∀ (C : Type) [DecidableEq C] (col : List C) (u w : C), u ∈ col → w ∈ col →
        (ordinalEncode (ordinalFit col) u < ordinalEncode (ordinalFit col) w ↔
          col.indexOf u < col.indexOf w)) ∧
    ordinalTransform (ordinalFit demoCol) demoCol = [1, 1, 1, 2, 2, 3] := by
  refine ⟨?_, ?_, ?_, ?_⟩
  · intro C _ col v hv
    have : v ∉ ordinalFit col := fun h => hv ((mem_uniqueInOrder col v).mp h)
    simp [ordinalEncode, this]
  · intro C _ col v hv
    have hmem : v ∈ ordinalFit col := (mem_uniqueInOrder col v).mpr hv
    have hlt : (ordinalFit col).indexOf v < (ordinalFit col).length :=
      List.indexOf_lt_length.mpr hmem
    simp only [ordinalEncode, if_pos hmem]
    exact ⟨Nat.succ_le_succ (Nat.zero_le _), Nat.succ_le_of_lt hlt⟩
  · intro C _ col u w hu hw
    have hmu : u ∈ ordinalFit col := (mem_uniqueInOrder col u).mpr hu
    have hmw : w ∈ ordinalFit col := (mem_uniqueInOrder col w).mpr hw
    simp only [ordinalEncode, if_pos hmu, if_pos hmw, Nat.succ_lt_succ_iff]
    exact indexOf_uniqueInOrder_lt_iff col u w hu hw
  · rw [ordinalTransform, demoVocab_eq]
    simp [demoCol, ordinalEncode, List.indexOf, List.findIdx, List.findIdx.go]

/-- Witness for C6 at a concrete input: the unseen value "c" maps to 0. -/
theorem ordinal_encoding_first_occurrence_witness :
    ordinalEncode (ordinalFit ["a", "b"]) "c" = 0 :=
  ordinal_encoding_first_occurrence.1 String ["a", "b"] "c" (by decide)

/-! ## Claim C5: one-hot strategy -/

theorem oneHotEncode_sum_zero {C : Type} [DecidableEq C] (vocab : List C)
    (v : C) (hv : v ∉ vocab) : (oneHotEncode vocab v).sum = 0 := by
  induction vocab with
  | nil => rfl
  | cons a t ih =>
    have hva : v ≠ a := fun h => hv (h ▸ List.mem_cons_self a t)
    have hvt : v ∉ t := fun h => hv (List.mem_cons_of_mem a h)
    simp [oneHotEncode, hva] at ih ⊢
    exact ih hvt

theorem oneHotEncode_sum_one {C : Type} [DecidableEq C] (vocab : List C)
    (v : C) (hnd : vocab.Nodup) (hv : v ∈ vocab) :
    (oneHotEncode vocab v).sum = 1 := by
  induction vocab with
  | nil => cases hv
  | cons a t ih =>
    rcases List.nodup_cons.mp hnd with ⟨hat, hndt⟩
    by_cases hva : v = a
    · subst hva
      have h0 : (oneHotEncode t v).sum = 0 := oneHotEncode_sum_zero t v hat
      simp [oneHotEncode] at h0 ⊢
      exact h0
    · have hvt : v ∈ t := by
        rcases List.mem_cons.mp hv with rfl | h
        · exact absurd rfl hva
        · exact h
      have h1 := ih hndt hvt
      simp [oneHotEncode, hva] at h1 ⊢
      exact h1

/-- C5: one-hot transform over a vocabulary of size k produces k binary
columns; a row whose category is in the vocabulary has row sum 1 with every
entry 0 or 1 (exactly one 1); a row with an unseen category is all zeros;
on the demo column the output matches cell 13. -/
theorem one_hot_exactly_one :
    (∀ (C : Type) [DecidableEq C] (vocab : List C) (v : C),
        (oneHotEncode vocab v).length = vocab.length) ∧
    (∀ (C : Type) [DecidableEq C] (col : List C) (v : C), v ∈ col →
        (oneHotEncode (ordinalFit col) v).sum = 1 ∧
        ∀ x ∈ oneHotEncode (ordinalFit col) v, x = 0 ∨ x = 1) ∧
    (∀ (C : Type) [DecidableEq C] (col : List C) (v : C), v ∉ col →
        ∀ x ∈ oneHotEncode (ordinalFit col) v, x = 0) ∧
    oneHotTransform (ordinalFit demoCol) demoCol =
      [[1, 0, 0], [1, 0, 0], [1, 0, 0], [0, 1, 0], [0, 1, 0], [0, 0, 1]] := by
  refine ⟨?_, ?_, ?_, ?_⟩
  · intro C _ vocab v
    simp [oneHotEncode]
  · intro C _ col v hv
    refine ⟨oneHotEncode_sum_one _ v (nodup_uniqueInOrder col)
      ((mem_uniqueInOrder col v).mpr hv), ?_⟩
    intro x hx
    rcases List.mem_map.mp hx with ⟨u, _, rfl⟩
    by_cases h : v = u <;> simp [h]
  · intro C _ col v hv
    intro x hx
    rcases List.mem_map.mp hx with ⟨u, hu, rfl⟩
    have : v ≠ u := fun h => hv (by rw [h]; exact (mem_uniqueInOrder col u).mp hu)
    simp [this]
  · rw [oneHotTransform, demoVocab_eq]
    decide

/-- Witness for C5 at a concrete input: encoding "a" over the vocabulary of
["a", "b"] has row sum 1. -/
theorem one_hot_exactly_one_witness :
    (oneHotEncode (ordinalFit ["a", "b"]) "a").sum = 1 :=
  (one_hot_exactly_one.2.1 String ["a", "b"] "a" (by decide)).1

/-! ## Binary strategy lemmas -/

theorem length_toBitsMSB (w n : ℕ) : (toBitsMSB w n).length = w := by
  induction w generalizing n with
  | zero => rfl
  | succ w ih => simp [toBitsMSB, ih]

theorem mod_two_pow_div_pow_mod_two (n w d : ℕ) (h : d < w) :
    n % 2 ^ w / 2 ^ d % 2 = n / 2 ^ d % 2 := by
  have ht : Nat.testBit (n % 2 ^ w) d = Nat.testBit n d := by
    rw [Nat.testBit_mod_two_pow]
    simp [h]
  rw [Nat.testBit_to_div_mod, Nat.testBit_to_div_mod] at ht
  have ha : n % 2 ^ w / 2 ^ d % 2 < 2 := Nat.mod_lt _ (by norm_num)
  have hb : n / 2 ^ d % 2 < 2 := Nat.mod_lt _ (by norm_num)
  by_cases h1 : n % 2 ^ w / 2 ^ d % 2 = 1 <;> by_cases h2 : n / 2 ^ d % 2 = 1
  · rw [h1, h2]
  · simp [h1, h2] at ht
  · simp [h1, h2] at ht
  · omega

/-- Column `j` of the `w`-bit output holds bit `w - 1 - j` of the encoded
integer: most-significant bit first. -/
theorem toBitsMSB_getD (w : ℕ) :
    ∀ (n j : ℕ), j < w → (toBitsMSB w n).getD j 0 = n / 2 ^ (w - 1 - j) % 2 := by
  induction w with
  | zero => intro n j hj; cases hj
  | succ w ih =>
    intro n j hj
    match j with
    | 0 => simp [toBitsMSB]
    | j + 1 =>
      have hjw : j < w := Nat.lt_of_succ_lt_succ hj
      have hw : 0 < w := Nat.lt_of_le_of_lt (Nat.zero_le j) hjw
      have hd : w - 1 - j < w := by omega
      have : (toBitsMSB (w + 1) n).getD (j + 1) 0 =
          (toBitsMSB w (n % 2 ^ w)).getD j 0 := rfl
      rw [this, ih (n % 2 ^ w) j hjw, mod_two_pow_div_pow_mod_two n w _ hd,
        show w + 1 - 1 - (j + 1) = w - 1 - j from by omega]

theorem fromBitsMSB_foldl_acc :
    ∀ (bs : List ℕ) (a : ℕ),
    bs.foldl (fun acc b => 2 * acc + b) a =
      a * 2 ^ bs.length + bs.foldl (fun acc b => 2 * acc + b) 0 := by
  intro bs
  induction bs with
  | nil => intro a; simp
  | cons b t ih =>
    intro a
    simp only [List.foldl_cons, List.length_cons, Nat.mul_zero, Nat.zero_add]
    rw [ih (2 * a + b), ih b]
    ring

/-- Decoding the most-significant-bit-first digits of `n` over enough columns
recovers `n`. -/
theorem fromBitsMSB_toBitsMSB (w : ℕ) :
    ∀ n : ℕ, n < 2 ^ w → fromBitsMSB (toBitsMSB w n) = n := by
  induction w with
  | zero =>
    intro n hn
    interval_cases n
    rfl
  | succ w ih =>
    intro n hn
    have hmod : n % 2 ^ w < 2 ^ w := Nat.mod_lt _ (Nat.pos_pow_of_pos w (by norm_num))
    have hdiv : n / 2 ^ w < 2 := by
      have hn' : n < 2 ^ w * 2 := by rw [← pow_succ]; exact hn
      exact Nat.div_lt_of_lt_mul hn'
    have hmod2 : n / 2 ^ w % 2 = n / 2 ^ w := Nat.mod_eq_of_lt hdiv
    rw [toBitsMSB, fromBitsMSB, List.foldl_cons]
    rw [fromBitsMSB_foldl_acc, length_toBitsMSB]
    have := ih (n % 2 ^ w) hmod
    rw [fromBitsMSB] at this
    rw [this, hmod2]
    simp only [Nat.mul_zero, Nat.zero_add, Nat.zero_mul]
    calc n / 2 ^ w * 2 ^ w + n % 2 ^ w
        = 2 ^ w * (n / 2 ^ w) + n % 2 ^ w := by ring
      _ = n := Nat.div_add_mod n (2 ^ w)

/-- Every fitted ordinal code fits in the allocated binary width. -/
theorem ordinalEncode_lt_two_pow_requiredDigits {C : Type} [DecidableEq C]
    (vocab : List C) (v : C) :
    ordinalEncode vocab v < 2 ^ requiredDigits vocab.length := by
  have hk : vocab.length ≤ 2 ^ Nat.clog 2 vocab.length :=
    Nat.le_pow_clog (by norm_num) _
  have hcode : ordinalEncode vocab v ≤ vocab.length := by
    rw [ordinalEncode]
    by_cases h : v ∈ vocab
    · rw [if_pos h]
      exact Nat.succ_le_of_lt (List.indexOf_lt_length.mpr h)
    · rw [if_neg h]
      exact Nat.zero_le _
  have hpow : (2 : ℕ) ^ Nat.clog 2 vocab.length <
      2 ^ requiredDigits vocab.length :=
    Nat.pow_lt_pow_right (by norm_num) (Nat.lt_succ_self _)
  exact Nat.lt_of_le_of_lt (Nat.le_trans hcode hk) hpow

/-! ## Claim C3: binary strategy column count and bit order -/

theorem requiredDigits_three : requiredDigits 3 = 3 := by
  simp [requiredDigits, Nat.clog]

/-- C3 counterexample: on the demo column (3 fitted categories, largest
ordinal index 3) the binary strategy produces 3 output columns, while the
claim's formula `ceil(log2(max_index + 1))` gives 2; cell 16's recorded
output indeed shows the three columns `PRODUCT_ID_binary__0..2`. -/
theorem binary_width_ne_claimed_formula :
    (binaryEncode (ordinalFit demoCol) "coke zero").length = 3 ∧
    Nat.clog 2 ((ordinalFit demoCol).length + 1) = 2 ∧
    (binaryEncode (ordinalFit demoCol) "coke zero").length ≠
      Nat.clog 2 ((ordinalFit demoCol).length + 1) := by
  have h3 : (["coke zero", "car", "toothpaste"] : List String).length = 3 := rfl
  have h1 : (binaryEncode ["coke zero", "car", "toothpaste"] "coke zero").length = 3 := by
    simp only [binaryEncode, h3, requiredDigits_three]
    decide
  have h2 : Nat.clog 2 ((["coke zero", "car", "toothpaste"] : List String).length + 1) = 2 := by
    simp [Nat.clog]
  rw [demoVocab_eq]
  exact ⟨h1, h2, by rw [h1, h2]; decide⟩

/-- C3 amended: the binary strategy allocates `ceil(log2 k) + 1` output
columns for a fitted vocabulary of `k` categories (not
`ceil(log2 (k + 1))`), and transform writes the binary representation of the
row's ordinal index across them most-significant bit first (column `j` holds
bit `width - 1 - j`); on the demo column the output matches cell 16. -/
theorem binary_width_and_msb_order :
    (∀ (C : Type) [DecidableEq C] (vocab : List C) (v : C),
        (binaryEncode vocab v).length = Nat.clog 2 vocab.length + 1) ∧
    (∀ (C : Type) [DecidableEq C] (vocab : List C) (v : C) (j : ℕ),
        j < requiredDigits vocab.length →
        (binaryEncode vocab v).getD j 0 =
          ordinalEncode vocab v / 2 ^ (requiredDigits vocab.length - 1 - j) % 2) ∧
    binaryTransform (ordinalFit demoCol) demoCol =
      [[0, 0, 1], [0, 0, 1], [0, 0, 1], [0, 1, 0], [0, 1, 0], [0, 1, 1]] := by
  refine ⟨?_, ?_, ?_⟩
  · intro C _ vocab v
    rw [binaryEncode, length_toBitsMSB, requiredDigits]
  · intro C _ vocab v j hj
    rw [binaryEncode, toBitsMSB_getD _ _ j hj]
  · rw [binaryTransform, demoVocab_eq]
    have h3 : (["coke zero", "car", "toothpaste"] : List String).length = 3 := rfl
    simp only [demoCol, List.map_cons, List.map_nil, binaryEncode, h3,
      requiredDigits_three]
    decide

/-- Witness for the amended C3 at a concrete input: the most significant
column of the 2-wide encoding of "a" over vocabulary ["a", "b"]. -/
theorem binary_width_and_msb_order_witness :
    (binaryEncode ["a", "b"] "a").getD 0 0 =
      ordinalEncode ["a", "b"] "a" /
        2 ^ (requiredDigits (["a", "b"] : List String).length - 1 - 0) % 2 :=
  binary_width_and_msb_order.2.1 String ["a", "b"] "a" 0 (Nat.succ_pos _)

/-! ## Claim C4: binary round-trip -/

/-- C4: for every category in the fitted vocabulary, interpreting its binary
output columns as a base-2 integer (most-significant bit first) recovers the
ordinal index assigned during fit; decoding the demo output of cell 16
recovers the ordinal codes of cell 10. -/
theorem binary_roundtrip :
    (∀ (C : Type) [DecidableEq C] (col : List C) (v : C), v ∈ col →
        fromBitsMSB (binaryEncode (ordinalFit col) v) =
          ordinalEncode (ordinalFit col) v) ∧
    (binaryTransform (ordinalFit demoCol) demoCol).map fromBitsMSB =
      ordinalTransform (ordinalFit demoCol) demoCol := by
  constructor
  · intro C _ col v _
    exact fromBitsMSB_toBitsMSB _ _ (ordinalEncode_lt_two_pow_requiredDigits _ _)
  · rw [binaryTransform, ordinalTransform, demoVocab_eq]
    have h3 : (["coke zero", "car", "toothpaste"] : List String).length = 3 := rfl
    simp only [demoCol, List.map_cons, List.map_nil, binaryEncode, h3,
      requiredDigits_three]
    decide

/-- Witness for C4 at a concrete input: decoding the binary row of "car". -/
theorem binary_roundtrip_witness :
    fromBitsMSB (binaryEncode (ordinalFit demoCol) "car") =
      ordinalEncode (ordinalFit demoCol) "car" :=
  binary_roundtrip.1 String demoCol "car" (by decide)

/-! ## Claim C2: leave-one-out on the training set -/

theorem catTargets_cons {C : Type} [DecidableEq C] (a : C × ℚ) (l : List (C × ℚ))
    (c : C) :
    catTargets (a :: l) c =
      if a.1 = c then a.2 :: catTargets l c else catTargets l c := by
  by_cases h : a.1 = c <;> simp [catTargets, List.filter_cons, h]

theorem catSum_cons {C : Type} [DecidableEq C] (a : C × ℚ) (l : List (C × ℚ))
    (c : C) :
    catSum (a :: l) c = (if a.1 = c then a.2 else 0) + catSum l c := by
  rw [catSum, catTargets_cons]
  by_cases h : a.1 = c <;> simp [h, catSum]

theorem catCount_cons {C : Type} [DecidableEq C] (a : C × ℚ) (l : List (C × ℚ))
    (c : C) :
    catCount (a :: l) c = (if a.1 = c then 1 else 0) + catCount l c := by
  rw [catCount, catTargets_cons]
  by_cases h : a.1 = c
  · simp [h, catCount]
    omega
  · simp [h, catCount]

theorem one_le_catCount_of_mem {C : Type} [DecidableEq C] {rows : List (C × ℚ)}
    {r : C × ℚ} (hr : r ∈ rows) : 1 ≤ catCount rows r.1 := by
  induction rows with
  | nil => cases hr
  | cons a l ih =>
    rw [catCount_cons]
    rcases List.mem_cons.mp hr with rfl | h
    · simp
    · have := ih h
      omega

/-- Removing training row `i` removes exactly its own target from its
category's sum and count. -/
theorem catStats_eraseIdx {C : Type} [DecidableEq C] :
    ∀ (rows : List (C × ℚ)) (i : ℕ) (hi : i < rows.length),
      catSum (rows.eraseIdx i) (rows[i]).1 =
        catSum rows (rows[i]).1 - (rows[i]).2 ∧
      catCount (rows.eraseIdx i) (rows[i]).1 =
        catCount rows (rows[i]).1 - 1 := by
  intro rows
  induction rows with
  | nil => intro i hi; cases hi
  | cons a l ih =>
    intro i hi
    match i with
    | 0 =>
      constructor
      · show catSum l a.1 = catSum (a :: l) a.1 - a.2
        rw [catSum_cons, if_pos rfl]
        ring
      · show catCount l a.1 = catCount (a :: l) a.1 - 1
        rw [catCount_cons, if_pos rfl]
        omega
    | i + 1 =>
      have hi' : i < l.length := Nat.lt_of_succ_lt_succ (by simpa using hi)
      obtain ⟨hs, hc⟩ := ih i hi'
      have hpos : 1 ≤ catCount l (l[i]).1 :=
        one_le_catCount_of_mem (List.getElem_mem hi')
      constructor
      · show catSum (a :: l.eraseIdx i) (l[i]).1 =
          catSum (a :: l) (l[i]).1 - (l[i]).2
        rw [catSum_cons, catSum_cons, hs]
        ring
      · show catCount (a :: l.eraseIdx i) (l[i]).1 =
          catCount (a :: l) (l[i]).1 - 1
        rw [catCount_cons, catCount_cons, hc]
        omega

/-- C2: on the training set every row receives the mean of the target over
the *other* rows of its category (equivalently `(catSum - own) / (n - 1)`),
and a row whose category has a single occurrence receives the global mean;
on the spec's example rows {A:10, A:20, B:30} the outputs are
[20, 10, 20 = global mean], and on the demo rows the outputs match cell 26
(`8.33 = 25/3`). -/
theorem loo_mean_of_other_rows :
    (∀ (C : Type) [DecidableEq C] (rows : List (C × ℚ)) (i : ℕ)
        (hi : i < rows.length),
        (2 ≤ catCount rows (rows[i]).1 →
          (looFitTransform rows).getD i 0 =
            catSum (rows.eraseIdx i) (rows[i]).1 /
              (catCount (rows.eraseIdx i) (rows[i]).1 : ℚ)) ∧
        (catCount rows (rows[i]).1 = 1 →
          (looFitTransform rows).getD i 0 = globalMean rows)) ∧
    looFitTransform exRows = [20, 10, 20] ∧
    looFitTransform demoRows = [15 / 2, 5, 5 / 2, 20, 15, 25 / 3] := by
  refine ⟨?_, ?ex, ?demo⟩
  case ex =>
    simp [looFitTransform, exRows, looRowValue, catSum, catCount,
      catTargets, globalMean]
    norm_num
  case demo =>
    simp [looFitTransform, demoRows, demoCol, demoValues, looRowValue,
      catSum, catCount, catTargets, globalMean]
    norm_num
  intro C _ rows i hi
  have hget : (looFitTransform rows).getD i 0 = looRowValue rows (rows[i]) := by
    rw [looFitTransform, List.getD_eq_getElem?_getD, List.getElem?_map,
      List.getElem?_eq_getElem hi]
    rfl
  obtain ⟨hs, hc⟩ := catStats_eraseIdx rows i hi
  constructor
  · intro h2
    have hne : catCount rows (rows[i]).1 ≠ 1 := by omega
    rw [hget, looRowValue, if_neg hne, hs, hc]
    have hcast : ((catCount rows (rows[i]).1 - 1 : ℕ) : ℚ) =
        (catCount rows (rows[i]).1 : ℚ) - 1 := by
      rw [Nat.cast_sub (by omega)]
      norm_num
    rw [hcast]
  · intro h1
    rw [hget, looRowValue, if_pos h1]

/-- Witness for C2 at a concrete input: the single-occurrence row B of the
example receives the global mean. -/
theorem loo_mean_of_other_rows_witness :
    (looFitTransform exRows).getD 2 0 = globalMean exRows :=
  (loo_mean_of_other_rows.1 String exRows 2 (by decide)).2 (by decide)

/-! ## Claim C9: hashing strategy -/

/-- C9: with configured width `w`, the hashing transform sets exactly the
column `hash v % w` to 1 and every other of the `w` columns to 0; two values
whose hashes agree modulo `w` (a collision) produce the identical row — with
width 1 every value produces `[1]` — and no error is raised (the transform
is total); with a hash assignment consistent with the recorded md5 columns,
the demo column reproduces cell 19. -/
theorem hashing_mod_column_collisions :
    (∀ (C : Type) (hash : C → ℕ) (w : ℕ) (v : C),
        (hashingEncode hash w v).length = w) ∧
    (∀ (C : Type) (hash : C → ℕ) (w : ℕ) (v : C) (j : ℕ), j < w →
        (hashingEncode hash w v).getD j 0 = if hash v % w = j then 1 else 0) ∧
    (∀ (C : Type) (hash : C → ℕ) (w : ℕ) (v₁ v₂ : C),
        hash v₁ % w = hash v₂ % w →
        hashingEncode hash w v₁ = hashingEncode hash w v₂) ∧
    (∀ (C : Type) (hash : C → ℕ) (v₁ v₂ : C),
        hashingEncode hash 1 v₁ = [1] ∧ hashingEncode hash 1 v₂ = [1]) ∧
    hashingTransform demoHash 8 demoCol =
      [[0, 0, 0, 0, 1, 0, 0, 0], [0, 0, 0, 0, 1, 0, 0, 0],
        [0, 0, 0, 0, 1, 0, 0, 0], [0, 1, 0, 0, 0, 0, 0, 0],
        [0, 1, 0, 0, 0, 0, 0, 0], [0, 0, 0, 1, 0, 0, 0, 0]] := by
  refine ⟨?_, ?_, ?_, ?_, ?_⟩
  · intro C hash w v
    simp [hashingEncode]
  · intro C hash w v j hj
    rw [hashingEncode, List.getD_eq_getElem?_getD, List.getElem?_map,
      List.getElem?_range hj]
    rfl
  · intro C hash w v₁ v₂ h
    simp [hashingEncode, h]
  · intro C hash v₁ v₂
    constructor <;> simp [hashingEncode, Nat.mod_one, List.range_succ]
  · decide

/-- Witness for C9 at a concrete input: identity hash, width 1, values 0 and
1 collide into the same row. -/
theorem hashing_mod_column_collisions_witness :
    hashingEncode (fun n : ℕ => n) 1 0 = hashingEncode (fun n : ℕ => n) 1 1 :=
  hashing_mod_column_collisions.2.2.1 ℕ (fun n => n) 1 0 1 (by decide)

/-! ## Claim C8: the Unfit → Fit → Transform* state machine -/

/-- C8: transform on a never-fitted encoder fails with the "not fitted"
error and produces no output (the error constructor carries none); after a
fit, transform succeeds on any column; re-fitting replaces the prior fit
state entirely — fitting twice is the same encoder as fitting once with the
second column. -/
theorem transform_requires_fit :
    (∀ (C S : Type) (e : Encoder C S) (col : List C), e.state = none →
        e.transform col = Except.error "not fitted") ∧
    (∀ (C S : Type) (e : Encoder C S) (colFit colNew : List C),
        (e.fit colFit).transform colNew =
          Except.ok (colNew.map (e.applyFn (e.fitFn colFit)))) ∧
    (∀ (C S : Type) (e : Encoder C S) (c₁ c₂ : List C),
        (e.fit c₁).fit c₂ = e.fit c₂) := by
  refine ⟨?_, ?_, ?_⟩
  · intro C S e col h
    simp [Encoder.transform, h]
  · intro C S e colFit colNew
    rfl
  · intro C S e c₁ c₂
    rfl

/-- Witness for C8 at a concrete input: an unfitted encoder rejects
transform. -/
theorem transform_requires_fit_witness :
    (Encoder.mk (fun _ : List ℕ => ()) (fun _ _ => ([] : List ℚ)) none).transform
        [0] = Except.error "not fitted" :=
  transform_requires_fit.1 ℕ Unit
    (Encoder.mk (fun _ => ()) (fun _ _ => []) none) [0] rfl

/-! ## Claim C7: row count and pass-through of non-categorical columns -/

/-- C7: for every strategy the encoded table has exactly as many rows as the
input table, and the non-categorical `value` column passes through unchanged
in order; only the categorical column is replaced by encoded columns. -/
theorem rows_preserved_value_passthrough :
    (∀ (C : Type) [DecidableEq C] (vocab : List C) (rows : List (C × ℚ)),
        (ordinalTable vocab rows).length = rows.length ∧
        (ordinalTable vocab rows).map Prod.snd = rows.map Prod.snd) ∧
    (∀ (C : Type) [DecidableEq C] (vocab : List C) (rows : List (C × ℚ)),
        (oneHotTable vocab rows).length = rows.length ∧
        (oneHotTable vocab rows).map Prod.snd = rows.map Prod.snd) ∧
    (∀ (C : Type) [DecidableEq C] (vocab : List C) (rows : List (C × ℚ)),
        (binaryTable vocab rows).length = rows.length ∧
        (binaryTable vocab rows).map Prod.snd = rows.map Prod.snd) ∧
    (∀ (C : Type) (hash : C → ℕ) (w : ℕ) (rows : List (C × ℚ)),
        (hashingTable hash w rows).length = rows.length ∧
        (hashingTable hash w rows).map Prod.snd = rows.map Prod.snd) ∧
    (∀ (C : Type) [DecidableEq C] (fitRows rows : List (C × ℝ)),
        (targetTable fitRows rows).length = rows.length ∧
        (targetTable fitRows rows).map Prod.snd = rows.map Prod.snd) ∧
    (∀ (C : Type) [DecidableEq C] (rows : List (C × ℚ)),
        (looTable rows).length = rows.length ∧
        (looTable rows).map Prod.snd = rows.map Prod.snd ∧
        (looFitTransform rows).length = rows.length) := by
  refine ⟨?_, ?_, ?_, ?_, ?_, ?_⟩
  · intro C _ vocab rows
    exact ⟨by simp [ordinalTable], by simp only [ordinalTable, List.map_map]; rfl⟩
  · intro C _ vocab rows
    exact ⟨by simp [oneHotTable], by simp only [oneHotTable, List.map_map]; rfl⟩
  · intro C _ vocab rows
    exact ⟨by simp [binaryTable], by simp only [binaryTable, List.map_map]; rfl⟩
  · intro C hash w rows
    exact ⟨by simp [hashingTable], by simp only [hashingTable, List.map_map]; rfl⟩
  · intro C _ fitRows rows
    exact ⟨by simp [targetTable], by simp only [targetTable, List.map_map]; rfl⟩
  · intro C _ rows
    exact ⟨by simp [looTable], by simp only [looTable, List.map_map]; rfl,
      by simp [looFitTransform]⟩

/-! ## Target strategy lemmas -/

theorem catTargetsR_ex_A : catTargetsR exRowsR "A" = [10, 20] := by
  simp [catTargetsR, exRowsR]

theorem catTargetsR_ex_B : catTargetsR exRowsR "B" = [30] := by
  simp [catTargetsR, exRowsR]

theorem priorMean_ex : priorMean exRowsR = 20 := by
  simp [priorMean, exRowsR]
  norm_num

theorem smoothWeight_pos (n : ℕ) : 0 < smoothWeight n := by
  rw [smoothWeight]
  positivity

theorem smoothWeight_lt_one (n : ℕ) : smoothWeight n < 1 := by
  rw [smoothWeight, div_lt_one (by positivity)]
  have := Real.exp_pos (-((n : ℝ) - 1))
  linarith

/-- The fitted value for B (a single-occurrence category) is the prior 20. -/
theorem targetStat_ex_B : targetStat exRowsR "B" = 20 := by
  rw [targetStat, catTargetsR_ex_B, if_pos (by norm_num), priorMean_ex]

/-- The fitted value for A blends the prior 20 and the category mean 15. -/
theorem targetStat_ex_A :
    targetStat exRowsR "A" =
      20 * (1 - smoothWeight 2) + 15 * smoothWeight 2 := by
  rw [targetStat, catTargetsR_ex_A]
  rw [if_neg (by norm_num), priorMean_ex]
  have hmean : specTargetMean exRowsR "A" = 15 := by
    rw [specTargetMean, catTargetsR_ex_A]
    norm_num
  rw [hmean]
  norm_num

/-! ## Claim C1: target strategy -/

/-- C1 counterexample: on the spec's own example (categories {A, A, B},
targets {10, 20, 30}) the fitted value for B is the global mean 20, not the
plain per-category mean 30 the claim asserts; cell 23 confirms the library
behaves this way (the single-occurrence category `toothpaste` is encoded
8.33, the global mean, not its own target 0.00). -/
theorem target_stored_value_ne_plain_mean :
    targetStat exRowsR "B" = 20 ∧ specTargetMean exRowsR "B" = 30 ∧
    targetStat exRowsR "B" ≠ specTargetMean exRowsR "B" := by
  have hspec : specTargetMean exRowsR "B" = 30 := by
    rw [specTargetMean, catTargetsR_ex_B]
    norm_num
  refine ⟨targetStat_ex_B, hspec, ?_⟩
  rw [targetStat_ex_B, hspec]
  norm_num

/-- C1 amended: the target strategy stores, per category with `n ≥ 2` rows,
the smoothed blend `prior * (1 - w) + catMean * w` with
`w = 1 / (1 + exp (-(n - 1)))` strictly between 0 and 1 — not the plain
category mean — and stores the global (prior) mean outright for categories
with at most one row and for unseen categories; transform replaces each
value with the stored statistic.  On {A, A, B} with targets {10, 20, 30},
transforming [A, B] yields [20(1-w)+15w, 20] with the first entry strictly
between 15 and 20 (not [15, 30]). -/
theorem target_smoothed_blend :
    (∀ (C : Type) [DecidableEq C] (rows : List (C × ℝ)) (c : C),
        (catTargetsR rows c).length ≤ 1 → targetStat rows c = priorMean rows) ∧
    (∀ (C : Type) [DecidableEq C] (rows : List (C × ℝ)) (c : C),
        2 ≤ (catTargetsR rows c).length →
        targetStat rows c =
          priorMean rows * (1 - smoothWeight (catTargetsR rows c).length) +
            specTargetMean rows c * smoothWeight (catTargetsR rows c).length) ∧
    (∀ n : ℕ, 0 < smoothWeight n ∧ smoothWeight n < 1) ∧
    targetTransform exRowsR ["A", "B"] =
      [20 * (1 - smoothWeight 2) + 15 * smoothWeight 2, 20] ∧
    15 < 20 * (1 - smoothWeight 2) + 15 * smoothWeight 2 ∧
    20 * (1 - smoothWeight 2) + 15 * smoothWeight 2 < 20 := by
  have h0 := smoothWeight_pos 2
  have h1 := smoothWeight_lt_one 2
  refine ⟨?_, ?_, fun n => ⟨smoothWeight_pos n, smoothWeight_lt_one n⟩,
    ?_, by nlinarith, by nlinarith⟩
  · intro C _ rows c h
    rw [targetStat, if_pos h]
  · intro C _ rows c h
    rw [targetStat, if_neg (by omega)]
  · simp [targetTransform, targetStat_ex_A, targetStat_ex_B]

/-- Witness for the amended C1 at a concrete input: the single-occurrence
category B is stored as the prior mean. -/
theorem target_smoothed_blend_witness :
    targetStat exRowsR "B" = priorMean exRowsR :=
  target_smoothed_blend.1 String exRowsR "B" (by simp [catTargetsR, exRowsR])

/-! ## Claim C10: single-occurrence categories under target and
leave-one-out -/

/-- C10: a category occurring in exactly one training row is target-encoded
as the global mean of the whole target column (not its own target), and this
coincides with what leave-one-out assigns to that row; on the demo data
`toothpaste` (own target 0) is encoded 25/3 = 8.33 by both strategies. -/
theorem singleton_target_equals_global_mean :
    (∀ (C : Type) [DecidableEq C] (rows : List (C × ℝ)) (c : C),
        (catTargetsR rows c).length = 1 → targetStat rows c = priorMean rows) ∧
    catTargetsR demoRowsR "toothpaste" = [0] ∧
    targetStat demoRowsR "toothpaste" = 25 / 3 ∧
    priorMean demoRowsR = 25 / 3 ∧
    (looFitTransform demoRows).getD 5 0 = 25 / 3 ∧
    globalMean demoRows = 25 / 3 ∧
    (25 / 3 : ℝ) ≠ 0 := by
  have hcat : catTargetsR demoRowsR "toothpaste" = [0] := by
    simp [catTargetsR, demoRowsR]
  have hprior : priorMean demoRowsR = 25 / 3 := by
    simp [priorMean, demoRowsR]
    norm_num
  refine ⟨?_, hcat, ?_, hprior, ?_, ?_, by norm_num⟩
  · intro C _ rows c h
    rw [targetStat, if_pos (by omega)]
  · rw [targetStat, hcat, if_pos (by norm_num), hprior]
  · simp [looFitTransform, demoRows, demoCol, demoValues, looRowValue,
      catSum, catCount, catTargets, globalMean]
    norm_num
  · simp [globalMean, demoRows, demoCol, demoValues]
    norm_num

/-- Witness for C10 at a concrete input: toothpaste occurs once and is
encoded as the prior. -/
theorem singleton_target_equals_global_mean_witness :
    targetStat demoRowsR "toothpaste" = priorMean demoRowsR :=
  singleton_target_equals_global_mean.1 String demoRowsR "toothpaste"
    (by simp [catTargetsR, demoRowsR])

end CatEnc
